import Mathlib

/-!
Shallow embedding of the PigeonNS mDNS resolution engine (`index.js`,
class `MDNSResolver`): the cache, the pending-query table, the
resolution entry point `resolve`, the response ingestor
`_handleResponse`, the timeout callback, and `stop`.

JavaScript `Map` objects are modelled as insertion-ordered association
lists with the exact `Map` semantics: `get` finds the entry, `set`
overwrites in place (keeping the original insertion position) or
appends a new entry at the end, `delete` removes the entry, and
`keys().next().value` is the first key in insertion order.

Promises are modelled by identifiers into a settlement table: a
JavaScript promise settles at most once, so settling an
already-settled promise identifier is a no-op.  `setTimeout` timers
are modelled by identifiers into a table of armed timers together with
the data the timeout callback closes over; `clearTimeout` removes the
timer from the table and a timer absent from the table can no longer
fire.  Timestamps are in milliseconds, as produced by `Date.now()`.
-/

/-- `Map.prototype.get`: value stored under `k`, if any. -/
def mapGet {κ α : Type} [DecidableEq κ] (m : List (κ × α)) (k : κ) : Option α :=
  match m with
  | [] => none
  | (k', v) :: rest => if k' = k then some v else mapGet rest k

/-- `Map.prototype.set`: overwrite in place if the key is present
(keeping its insertion position), else append at the end. -/
def mapSet {κ α : Type} [DecidableEq κ] (m : List (κ × α)) (k : κ) (v : α) : List (κ × α) :=
  match m with
  | [] => [(k, v)]
  | (k', v') :: rest => if k' = k then (k', v) :: rest else (k', v') :: mapSet rest k v

/-- `Map.prototype.delete`: remove the entry stored under `k`, if any. -/
def mapDelete {κ α : Type} [DecidableEq κ] (m : List (κ × α)) (k : κ) : List (κ × α) :=
  match m with
  | [] => []
  | (k', v') :: rest => if k' = k then rest else (k', v') :: mapDelete rest k

/-- `String.prototype.toLowerCase` on one character (ASCII letters,
which is all hostnames use): `A`–`Z` shift down by 32, everything else
is unchanged. -/
def lowerChar (c : Char) : Char :=
  if 65 ≤ c.toNat ∧ c.toNat ≤ 90 then Char.ofNat (c.toNat + 32) else c

/-- `name.toLowerCase()` as used by `resolve` and `_handleResponse`. -/
def jsToLower (s : String) : String :=
  String.mk (s.data.map lowerChar)

/-- `String.prototype.endsWith`. -/
def jsEndsWith (s suffix : String) : Bool :=
  decide (suffix.data <:+ s.data)

/-- The local-domain suffix appended by `resolve`. -/
def localSuffix : String := ".local"

/-- Hostname normalization performed at the top of `resolve`:
lowercase the name, then append `.local` unless already present. -/
def normalizeName (name : String) : String :=
  let n := jsToLower name
  if jsEndsWith n localSuffix then n else n ++ localSuffix

/-- The composite key used for both the cache and the pending-query
table: `` `${name}:${type}` ``. -/
def cacheKey (name type : String) : String :=
  name ++ ":" ++ type

/-- The recognized configuration options (`this.options`). -/
structure Options where
  ttl : Nat
  cacheSize : Nat
  timeout : Nat
deriving DecidableEq, Repr

/-- The constructor's defaulting of options: JavaScript `x || d`
returns `d` exactly when the supplied numeric `x` is zero/absent. -/
def mkOptions (ttl cacheSize timeout : Nat) : Options :=
  { ttl := if ttl = 0 then 120 else ttl
    cacheSize := if cacheSize = 0 then 1000 else cacheSize
    timeout := if timeout = 0 then 5000 else timeout }

/-- A cache value: the address string and the absolute expiry
timestamp `Date.now() + ttl * 1000` in milliseconds. -/
structure CacheEntry where
  address : String
  expires : Nat
deriving DecidableEq, Repr

/-- A pending-query table value.  In the source it holds the
`resolve`/`reject` closures and the shared promise; here it holds the
identifier of the shared promise and of the armed timeout timer the
closures close over. -/
structure PendingEntry where
  promiseId : Nat
  timerId : Nat
deriving DecidableEq, Repr

/-- The data the `setTimeout` callback in `resolve` closes over: the
composite key it deletes, the normalized name it puts in the error
message, the promise it rejects, and the deadline it was armed for. -/
structure TimerInfo where
  key : String
  name : String
  promiseId : Nat
  deadline : Nat
deriving DecidableEq, Repr

/-- The errors a pending promise can be rejected with. -/
inductive ErrKind where
  | timeoutErr (name : String)
  | stoppedErr
deriving DecidableEq, Repr

/-- A JavaScript promise settles exactly once. -/
inductive PromiseState where
  | unsettled
  | resolvedWith (address : String)
  | rejectedWith (e : ErrKind)
deriving DecidableEq, Repr

/-- One answer record of an mDNS response, as delivered by the
transport.  A missing `ttl` field is `none`; `answer.ttl || ttl`
treats both a missing and a zero TTL as falsy. -/
structure Answer where
  name : String
  type : String
  data : String
  ttl : Option Nat
deriving DecidableEq, Repr

/-- An mDNS response: its list of answer records (a response without
an `answers` field is modelled by the empty list, which the guard at
the top of `_handleResponse` treats identically). -/
structure Response where
  answers : List Answer
deriving DecidableEq, Repr

/-- The payload of a `resolved` event emitted by `_handleResponse`. -/
structure ResolvedEvent where
  name : String
  type : String
  address : String
  ttl : Nat
deriving DecidableEq, Repr

/-- One transport `query` invocation (`this.mdns.query`). -/
structure Question where
  name : String
  type : String
deriving DecidableEq, Repr

/-- The complete mutable state of one `MDNSResolver` instance.
`running` models `this.mdns !== null`; `promises` records the
settlement state of every promise ever created; `timers` holds the
armed (not yet cleared or fired) timeout timers; `nextId` is a
fresh-identifier supply. -/
structure ResolverState where
  options : Options
  cache : List (String × CacheEntry)
  pendingQueries : List (String × PendingEntry)
  promises : List (Nat × PromiseState)
  timers : List (Nat × TimerInfo)
  nextId : Nat
  running : Bool
deriving DecidableEq, Repr

/-- Settle a promise with an address; a no-op unless the promise is
still unsettled (JavaScript promise semantics). -/
def settleResolve (ps : List (Nat × PromiseState)) (pid : Nat) (addr : String) :
    List (Nat × PromiseState) :=
  match mapGet ps pid with
  | some .unsettled => mapSet ps pid (.resolvedWith addr)
  | _ => ps

/-- Reject a promise; a no-op unless the promise is still unsettled. -/
def settleReject (ps : List (Nat × PromiseState)) (pid : Nat) (e : ErrKind) :
    List (Nat × PromiseState) :=
  match mapGet ps pid with
  | some .unsettled => mapSet ps pid (.rejectedWith e)
  | _ => ps

/-- The `resolve` closure stored in the pending-query table:
`clearTimeout(timeout); this.pendingQueries.delete(cacheKey);
promiseResolve(address)`. -/
def pendingResolve (st : ResolverState) (key : String) (ent : PendingEntry)
    (addr : String) : ResolverState :=
  { st with
    timers := mapDelete st.timers ent.timerId
    pendingQueries := mapDelete st.pendingQueries key
    promises := settleResolve st.promises ent.promiseId addr }

/-- The `reject` closure stored in the pending-query table:
`clearTimeout(timeout); this.pendingQueries.delete(cacheKey);
promiseReject(err)`. -/
def pendingReject (st : ResolverState) (key : String) (ent : PendingEntry)
    (e : ErrKind) : ResolverState :=
  { st with
    timers := mapDelete st.timers ent.timerId
    pendingQueries := mapDelete st.pendingQueries key
    promises := settleReject st.promises ent.promiseId e }

/-- Firing of the `setTimeout` callback armed by `resolve`: only an
armed (never-cleared, not yet fired) timer can fire; the callback
deletes the pending entry for its key and rejects the promise with the
timeout error naming the queried hostname. -/
def fireTimer (st : ResolverState) (tid : Nat) : ResolverState :=
  match mapGet st.timers tid with
  | none => st
  | some info =>
      { st with
        timers := mapDelete st.timers tid
        pendingQueries := mapDelete st.pendingQueries info.key
        promises := settleReject st.promises info.promiseId (.timeoutErr info.name) }

/-- The TTL selection `answer.ttl || this.options.ttl`: the record's
own TTL when present and nonzero, else the configured default. -/
def effectiveTtl (answerTtl : Option Nat) (defaultTtl : Nat) : Nat :=
  match answerTtl with
  | some t => if t = 0 then defaultTtl else t
  | none => defaultTtl

/-- The cache update in `_handleResponse`: `this.cache.set(cacheKey,
...)` followed by the size check that deletes the first key in
insertion order when the size exceeds the capacity. -/
def cachePut (cache : List (String × CacheEntry)) (capacity : Nat) (key : String)
    (e : CacheEntry) : List (String × CacheEntry) :=
  let c1 := mapSet cache key e
  if capacity < c1.length then
    match c1 with
    | [] => c1
    | kv :: _ => mapDelete c1 kv.1
  else c1

/-- The step `const pending = this.pendingQueries.get(cacheKey); if
(pending) pending.resolve(address)` of `_handleResponse`. -/
def settlePending (st : ResolverState) (key addr : String) : ResolverState :=
  match mapGet st.pendingQueries key with
  | some ent => pendingResolve st key ent addr
  | none => st

/-- The body of the `for (const answer of response.answers)` loop in
`_handleResponse`: ignore every record kind other than `A`/`AAAA`;
otherwise lowercase the name, derive the TTL, write the cache entry
(possibly evicting), settle a pending query for the key if one exists,
and emit a `resolved` event. -/
def handleAnswer (st : ResolverState) (now : Nat) (answer : Answer) :
    ResolverState × List ResolvedEvent :=
  if answer.type = "A" ∨ answer.type = "AAAA" then
    let name := jsToLower answer.name
    let address := answer.data
    let ttl := effectiveTtl answer.ttl st.options.ttl
    let key := cacheKey name answer.type
    let st1 := { st with cache := cachePut st.cache st.options.cacheSize key ⟨address, now + ttl * 1000⟩ }
    (settlePending st1 key address, [⟨name, answer.type, address, ttl⟩])
  else (st, [])

/-- `_handleResponse`: a response with no answer records is a no-op;
otherwise every answer record is processed in order by the loop
body. -/
def handleResponse (st : ResolverState) (now : Nat) (resp : Response) :
    ResolverState × List ResolvedEvent :=
  resp.answers.foldl
    (fun acc a =>
      let r := handleAnswer acc.1 now a
      (r.1, acc.2 ++ r.2))
    (st, [])

/-- The outcome of one `resolve` call: the thrown not-running error,
a synchronous cache hit, joining the promise of an existing pending
query, or creating a fresh pending query and returning its promise. -/
inductive ResolveOutcome where
  | errNotRunning
  | cacheHit (address : String)
  | joined (promiseId : Nat)
  | newQuery (promiseId : Nat)
deriving DecidableEq, Repr

/-- Result of a `resolve` call: its outcome, the state afterwards, and
the list of transport `query` invocations it performed. -/
structure ResolveResult where
  outcome : ResolveOutcome
  state : ResolverState
  sent : List Question
deriving DecidableEq, Repr

/-- The cache fast-path test in `resolve`: `cached && cached.expires >
Date.now()` returns the cached address. -/
def cacheHitCheck (cache : List (String × CacheEntry)) (key : String) (now : Nat) :
    Option String :=
  match mapGet cache key with
  | some c => if now < c.expires then some c.address else none
  | none => none

/-- The tail of `resolve` after the cache check: join an existing
pending query, or create the promise, arm the timeout, register the
pending entry and send exactly one transport query. -/
def resolveQueryPath (st : ResolverState) (now : Nat) (name type key : String) :
    ResolveResult :=
  match mapGet st.pendingQueries key with
  | some ent => ⟨.joined ent.promiseId, st, []⟩
  | none =>
      let pid := st.nextId
      let tid := st.nextId + 1
      let st' :=
        { st with
          nextId := st.nextId + 2
          promises := st.promises ++ [(pid, .unsettled)]
          timers := st.timers ++ [(tid, ⟨key, name, pid, now + st.options.timeout⟩)]
          pendingQueries := mapSet st.pendingQueries key ⟨pid, tid⟩ }
      ⟨.newQuery pid, st', [⟨name, type⟩]⟩

/-- `resolve(name, type = 'A')`: fail when not running, normalize the
name, compute the composite key, try the cache fast path, else go
through the pending-table check and query issue. -/
def resolve (st : ResolverState) (now : Nat) (name0 type : String) : ResolveResult :=
  if st.running = false then ⟨.errNotRunning, st, []⟩
  else
    let name := normalizeName name0
    let key := cacheKey name type
    match cacheHitCheck st.cache key now with
    | some addr => ⟨.cacheHit addr, st, []⟩
    | none => resolveQueryPath st now name type key

/-- The per-entry work of `stop`'s rejection loop: each stored
`reject` closure clears its timer and rejects its promise with the
stopped error (the closure's own table delete is a no-op because the
loop already emptied the table before the deferred rejections run). -/
def stopLoop (entries : List (String × PendingEntry)) (st : ResolverState) :
    ResolverState :=
  match entries with
  | [] => st
  | (_, ent) :: rest =>
      stopLoop rest
        { st with
          timers := mapDelete st.timers ent.timerId
          promises := settleReject st.promises ent.promiseId .stoppedErr }

/-- `stop()`: reject every pending query with the stopped error,
empty the pending-query table, release the transport (`this.mdns =
null`), and leave the cache untouched. -/
def stop (st : ResolverState) : ResolverState :=
  let st' := stopLoop st.pendingQueries { st with pendingQueries := [] }
  { st' with running := false }

/-! Helper lemmas about the `Map` model. -/

theorem mapGet_mapSet_self {κ α : Type} [DecidableEq κ] (m : List (κ × α)) (k : κ) (v : α) :
    mapGet (mapSet m k v) k = some v := by
  induction m with
  | nil => simp [mapGet, mapSet]
  | cons kv rest ih =>
      by_cases h : kv.1 = k
      · simp [mapGet, mapSet, h]
      · simp [mapGet, mapSet, h, ih]

theorem mapGet_mapSet_ne {κ α : Type} [DecidableEq κ] (m : List (κ × α)) (k k' : κ) (v : α)
    (h : k' ≠ k) : mapGet (mapSet m k v) k' = mapGet m k' := by
  have hne : k ≠ k' := fun e => h e.symm
  induction m with
  | nil => simp [mapGet, mapSet, hne]
  | cons kv rest ih =>
      obtain ⟨k1, v1⟩ := kv
      by_cases hk : k1 = k
      · subst hk
        simp [mapGet, mapSet, hne]
      · by_cases hk' : k1 = k'
        · subst hk'
          simp [mapGet, mapSet, hk, h]
        · simp [mapGet, mapSet, hk, hk', ih]

theorem mapSet_of_none {κ α : Type} [DecidableEq κ] (m : List (κ × α)) (k : κ) (v : α)
    (h : mapGet m k = none) : mapSet m k v = m ++ [(k, v)] := by
  induction m with
  | nil => simp [mapSet]
  | cons kv rest ih =>
      by_cases hk : kv.1 = k
      · simp [mapGet, hk] at h
      · simp [mapGet, hk] at h
        simp [mapSet, hk, ih h]

theorem map_fst_mapSet_of_some {κ α : Type} [DecidableEq κ] (m : List (κ × α)) (k : κ)
    (v w : α) (h : mapGet m k = some w) :
    (mapSet m k v).map Prod.fst = m.map Prod.fst := by
  induction m with
  | nil => simp [mapGet] at h
  | cons kv rest ih =>
      by_cases hk : kv.1 = k
      · simp [mapSet, hk]
      · simp [mapGet, hk] at h
        simp [mapSet, hk, ih h]

theorem length_mapSet_of_some {κ α : Type} [DecidableEq κ] (m : List (κ × α)) (k : κ)
    (v w : α) (h : mapGet m k = some w) : (mapSet m k v).length = m.length := by
  have := map_fst_mapSet_of_some m k v w h
  have h1 : ((mapSet m k v).map Prod.fst).length = (m.map Prod.fst).length := by rw [this]
  simpa using h1

theorem mapGet_mapDelete_ne {κ α : Type} [DecidableEq κ] (m : List (κ × α)) (k k' : κ)
    (h : k' ≠ k) : mapGet (mapDelete m k) k' = mapGet m k' := by
  have hne : k ≠ k' := fun e => h e.symm
  induction m with
  | nil => simp [mapDelete]
  | cons kv rest ih =>
      obtain ⟨k1, v1⟩ := kv
      by_cases hk : k1 = k
      · subst hk
        simp [mapDelete, mapGet, hne]
      · by_cases hk' : k1 = k'
        · subst hk'
          simp [mapDelete, mapGet, hk, h]
        · simp [mapDelete, mapGet, hk, hk', ih]

theorem mapDelete_sublist {κ α : Type} [DecidableEq κ] (m : List (κ × α)) (k : κ) :
    List.Sublist (mapDelete m k) m := by
  induction m with
  | nil => simp [mapDelete]
  | cons kv rest ih =>
      by_cases hk : kv.1 = k
      · simp only [mapDelete, hk, if_pos rfl]
        exact (List.sublist_cons_self kv rest)
      · simp only [mapDelete, hk, if_neg hk]
        exact ih.cons₂ kv

theorem mapGet_eq_none_iff {κ α : Type} [DecidableEq κ] (m : List (κ × α)) (k : κ) :
    mapGet m k = none ↔ k ∉ m.map Prod.fst := by
  induction m with
  | nil => simp [mapGet]
  | cons kv rest ih =>
      obtain ⟨k1, v1⟩ := kv
      by_cases hk : k1 = k
      · subst hk
        simp [mapGet]
      · have hk' : k ≠ k1 := fun e => hk e.symm
        simp [mapGet, hk, ih, hk']

theorem mapGet_mapDelete_self {κ α : Type} [DecidableEq κ] (m : List (κ × α)) (k : κ)
    (h : (m.map Prod.fst).Nodup) : mapGet (mapDelete m k) k = none := by
  induction m with
  | nil => simp [mapDelete, mapGet]
  | cons kv rest ih =>
      simp only [List.map_cons, List.nodup_cons] at h
      by_cases hk : kv.1 = k
      · simp only [mapDelete, hk, if_pos rfl]
        rw [mapGet_eq_none_iff]
        rw [hk] at h
        exact h.1
      · simp [mapDelete, mapGet, hk, ih h.2]

theorem mapGet_mem {κ α : Type} [DecidableEq κ] (m : List (κ × α)) (k : κ) (v : α)
    (h : mapGet m k = some v) : (k, v) ∈ m := by
  induction m with
  | nil => simp [mapGet] at h
  | cons kv rest ih =>
      obtain ⟨k1, v1⟩ := kv
      by_cases hk : k1 = k
      · subst hk
        simp [mapGet] at h
        subst h
        exact List.mem_cons_self _ _
      · simp only [mapGet, if_neg hk] at h
        exact List.mem_cons_of_mem _ (ih h)

theorem mapGet_append_of_some {κ α : Type} [DecidableEq κ] (m m' : List (κ × α)) (k : κ)
    (v : α) (h : mapGet m k = some v) : mapGet (m ++ m') k = some v := by
  induction m with
  | nil => simp [mapGet] at h
  | cons kv rest ih =>
      by_cases hk : kv.1 = k
      · simp_all [mapGet, hk]
      · simp_all [mapGet, hk]

theorem mapGet_append_of_none {κ α : Type} [DecidableEq κ] (m m' : List (κ × α)) (k : κ)
    (h : mapGet m k = none) : mapGet (m ++ m') k = mapGet m' k := by
  induction m with
  | nil => simp [mapGet]
  | cons kv rest ih =>
      by_cases hk : kv.1 = k
      · simp [mapGet, hk] at h
      · simp_all [mapGet, hk]

theorem mapDelete_cons_self {κ α : Type} [DecidableEq κ] (k : κ) (v : α)
    (rest : List (κ × α)) : mapDelete ((k, v) :: rest) k = rest := by
  simp [mapDelete]

/-! Helper lemmas about promise settlement. -/

theorem settleResolve_get_self (ps : List (Nat × PromiseState)) (pid : Nat) (a : String)
    (h : mapGet ps pid = some .unsettled) :
    mapGet (settleResolve ps pid a) pid = some (.resolvedWith a) := by
  simp [settleResolve, h, mapGet_mapSet_self]

theorem settleResolve_get_ne (ps : List (Nat × PromiseState)) (pid q : Nat) (a : String)
    (h : q ≠ pid) : mapGet (settleResolve ps pid a) q = mapGet ps q := by
  unfold settleResolve
  cases hg : mapGet ps pid with
  | none => rfl
  | some s =>
      cases s with
      | unsettled => exact mapGet_mapSet_ne ps pid q _ h
      | resolvedWith a' => rfl
      | rejectedWith e => rfl

theorem settleReject_get_self (ps : List (Nat × PromiseState)) (pid : Nat) (e : ErrKind)
    (h : mapGet ps pid = some .unsettled) :
    mapGet (settleReject ps pid e) pid = some (.rejectedWith e) := by
  simp [settleReject, h, mapGet_mapSet_self]

theorem settleReject_get_ne (ps : List (Nat × PromiseState)) (pid q : Nat) (e : ErrKind)
    (h : q ≠ pid) : mapGet (settleReject ps pid e) q = mapGet ps q := by
  unfold settleReject
  cases hg : mapGet ps pid with
  | none => rfl
  | some s =>
      cases s with
      | unsettled => exact mapGet_mapSet_ne ps pid q _ h
      | resolvedWith a' => rfl
      | rejectedWith e' => rfl

theorem settleReject_of_not_unsettled (ps : List (Nat × PromiseState)) (pid : Nat)
    (e : ErrKind) (h : mapGet ps pid ≠ some .unsettled) : settleReject ps pid e = ps := by
  unfold settleReject
  cases hg : mapGet ps pid with
  | none => rfl
  | some s =>
      cases s with
      | unsettled => exact absurd hg h
      | resolvedWith a' => rfl
      | rejectedWith e' => rfl

theorem settleResolve_of_not_unsettled (ps : List (Nat × PromiseState)) (pid : Nat)
    (a : String) (h : mapGet ps pid ≠ some .unsettled) : settleResolve ps pid a = ps := by
  unfold settleResolve
  cases hg : mapGet ps pid with
  | none => rfl
  | some s =>
      cases s with
      | unsettled => exact absurd hg h
      | resolvedWith a' => rfl
      | rejectedWith e' => rfl

/-! Helper lemmas about strings, lowercasing and the composite key. -/

theorem string_data_append (s t : String) : (s ++ t).data = s.data ++ t.data := by
  cases s
  cases t
  rfl

theorem string_eq_of_data_eq (s t : String) (h : s.data = t.data) : s = t := by
  cases s
  cases t
  exact congrArg String.mk h

theorem lowerChar_idem (c : Char) : lowerChar (lowerChar c) = lowerChar c := by
  by_cases h : 65 ≤ c.toNat ∧ c.toNat ≤ 90
  · have hc : lowerChar c = Char.ofNat (c.toNat + 32) := by rw [lowerChar, if_pos h]
    rw [hc]
    have key : ∀ m : Nat, 65 ≤ m → m ≤ 90 →
        lowerChar (Char.ofNat (m + 32)) = Char.ofNat (m + 32) := by
      intro m hm1 hm2
      interval_cases m <;> decide
    exact key c.toNat h.1 h.2
  · have hc : lowerChar c = c := by rw [lowerChar, if_neg h]
    rw [hc]
    exact hc

theorem jsToLower_append (s t : String) :
    jsToLower (s ++ t) = jsToLower s ++ jsToLower t := by
  apply string_eq_of_data_eq
  rw [string_data_append]
  show ((s ++ t).data.map lowerChar) = s.data.map lowerChar ++ t.data.map lowerChar
  rw [string_data_append, List.map_append]

theorem jsToLower_idem (s : String) : jsToLower (jsToLower s) = jsToLower s := by
  apply string_eq_of_data_eq
  show (s.data.map lowerChar).map lowerChar = s.data.map lowerChar
  rw [List.map_map]
  exact List.map_congr_left fun c _ => lowerChar_idem c

theorem jsToLower_localSuffix : jsToLower localSuffix = localSuffix := by decide

theorem jsEndsWith_append_self (s : String) :
    jsEndsWith (s ++ localSuffix) localSuffix = true := by
  unfold jsEndsWith
  rw [string_data_append]
  exact decide_eq_true (List.suffix_append s.data localSuffix.data)

theorem normalizeName_not_suffixed (h : String)
    (hnl : jsEndsWith (jsToLower h) localSuffix = false) :
    normalizeName h = jsToLower h ++ localSuffix := by
  simp only [normalizeName, hnl, Bool.false_eq_true, if_false]

theorem normalizeName_of_appended (h : String) :
    normalizeName (h ++ localSuffix) = jsToLower h ++ localSuffix := by
  simp only [normalizeName, jsToLower_append, jsToLower_localSuffix, jsEndsWith_append_self,
    if_true]

theorem normalizeName_idem (h : String) :
    normalizeName (normalizeName h) = normalizeName h := by
  by_cases hs : jsEndsWith (jsToLower h) localSuffix = true
  · simp only [normalizeName, hs, if_true, jsToLower_idem]
  · simp only [Bool.not_eq_true] at hs
    simp only [normalizeName, hs, Bool.false_eq_true, if_false, jsToLower_append,
      jsToLower_idem, jsToLower_localSuffix, jsEndsWith_append_self, if_true]

theorem cacheKey_data (name type : String) :
    (cacheKey name type).data = name.data ++ ':' :: type.data := by
  unfold cacheKey
  rw [string_data_append, string_data_append]
  simp [String.data]

theorem cons_append_inj {α : Type} (c : α) (x : List α) :
    ∀ (x' y y' : List α), c ∉ x → c ∉ x' →
      x ++ c :: y = x' ++ c :: y' → x = x' ∧ y = y' := by
  induction x with
  | nil =>
      intro x' y y' _ hx' heq
      cases x' with
      | nil => simpa using heq
      | cons d t =>
          simp only [List.nil_append, List.cons_append, List.cons.injEq] at heq
          exact absurd (heq.1 ▸ List.mem_cons_self d t) hx'
  | cons d t ih =>
      intro x' y y' hx hx' heq
      cases x' with
      | nil =>
          simp only [List.cons_append, List.nil_append, List.cons.injEq] at heq
          exact absurd (heq.1 ▸ List.mem_cons_self d t) hx
      | cons d' t' =>
          simp only [List.cons_append, List.cons.injEq] at heq
          have hx2 : c ∉ t := fun hm => hx (List.mem_cons_of_mem d hm)
          have hx2' : c ∉ t' := fun hm => hx' (List.mem_cons_of_mem d' hm)
          obtain ⟨h1, h2⟩ := ih t' y y' hx2 hx2' heq.2
          exact ⟨by rw [heq.1, h1], h2⟩

theorem cacheKey_type_inj (n n' t t' : String) (hc : ':' ∉ t.data) (hc' : ':' ∉ t'.data)
    (heq : cacheKey n t = cacheKey n' t') : t = t' := by
  have hdata : (cacheKey n t).data = (cacheKey n' t').data := by rw [heq]
  rw [cacheKey_data, cacheKey_data] at hdata
  have hrev : t.data.reverse ++ ':' :: n.data.reverse
      = t'.data.reverse ++ ':' :: n'.data.reverse := by
    have := congrArg List.reverse hdata
    simpa [List.reverse_append] using this
  have hcr : ':' ∉ t.data.reverse := by simpa using hc
  have hcr' : ':' ∉ t'.data.reverse := by simpa using hc'
  obtain ⟨h1, _⟩ := cons_append_inj ':' t.data.reverse t'.data.reverse _ _ hcr hcr' hrev
  apply string_eq_of_data_eq
  have := congrArg List.reverse h1
  simpa using this

theorem cacheKey_ne_of_type_ne (n n' t t' : String) (hc : ':' ∉ t.data)
    (hc' : ':' ∉ t'.data) (ht : t ≠ t') : cacheKey n t ≠ cacheKey n' t' :=
  fun h => ht (cacheKey_type_inj n n' t t' hc hc' h)

/-! Helper lemmas about the cache update and the ingestion step. -/

theorem cachePut_of_some (cache : List (String × CacheEntry)) (capacity : Nat)
    (key : String) (e w : CacheEntry) (hg : mapGet cache key = some w)
    (hsize : cache.length ≤ capacity) :
    cachePut cache capacity key e = mapSet cache key e := by
  have hlen : (mapSet cache key e).length = cache.length :=
    length_mapSet_of_some cache key e w hg
  have hnot : ¬ capacity < (mapSet cache key e).length := by omega
  simp only [cachePut, if_neg hnot]

theorem cachePut_of_none_room (cache : List (String × CacheEntry)) (capacity : Nat)
    (key : String) (e : CacheEntry) (hg : mapGet cache key = none)
    (hroom : cache.length < capacity) :
    cachePut cache capacity key e = cache ++ [(key, e)] := by
  have h1 : mapSet cache key e = cache ++ [(key, e)] := mapSet_of_none cache key e hg
  have hnot : ¬ capacity < (cache ++ [(key, e)]).length := by
    simp only [List.length_append, List.length_cons, List.length_nil]
    omega
  simp only [cachePut, h1, if_neg hnot]

theorem cachePut_of_none_full (k1 : String) (v1 : CacheEntry)
    (rest : List (String × CacheEntry)) (capacity : Nat) (key : String) (e : CacheEntry)
    (hg : mapGet ((k1, v1) :: rest) key = none)
    (hfull : ((k1, v1) :: rest).length = capacity) :
    cachePut ((k1, v1) :: rest) capacity key e = rest ++ [(key, e)] := by
  have h1 : mapSet ((k1, v1) :: rest) key e = (k1, v1) :: (rest ++ [(key, e)]) := by
    rw [mapSet_of_none _ _ _ hg]
    rfl
  have hlt : capacity < ((k1, v1) :: (rest ++ [(key, e)])).length := by
    simp only [List.length_cons, List.length_append, List.length_nil] at hfull ⊢
    omega
  simp only [cachePut, h1, if_pos hlt]
  exact mapDelete_cons_self k1 v1 (rest ++ [(key, e)])

theorem settlePending_cache (st : ResolverState) (key addr : String) :
    (settlePending st key addr).cache = st.cache := by
  unfold settlePending
  cases mapGet st.pendingQueries key <;> rfl

theorem settlePending_options (st : ResolverState) (key addr : String) :
    (settlePending st key addr).options = st.options := by
  unfold settlePending
  cases mapGet st.pendingQueries key <;> rfl

theorem handleAnswer_of_other_type (st : ResolverState) (now : Nat) (answer : Answer)
    (hA : answer.type ≠ "A") (hAA : answer.type ≠ "AAAA") :
    handleAnswer st now answer = (st, []) := by
  have hguard : ¬ (answer.type = "A" ∨ answer.type = "AAAA") := by
    intro h
    cases h with
    | inl h => exact hA h
    | inr h => exact hAA h
  simp only [handleAnswer, if_neg hguard]

theorem handleAnswer_of_addr_type (st : ResolverState) (now : Nat) (answer : Answer)
    (htype : answer.type = "A" ∨ answer.type = "AAAA") :
    handleAnswer st now answer =
      (settlePending
        { st with
            cache := cachePut st.cache st.options.cacheSize
                (cacheKey (jsToLower answer.name) answer.type)
                ⟨answer.data, now + effectiveTtl answer.ttl st.options.ttl * 1000⟩ }
        (cacheKey (jsToLower answer.name) answer.type) answer.data,
       [⟨jsToLower answer.name, answer.type, answer.data,
         effectiveTtl answer.ttl st.options.ttl⟩]) := by
  simp only [handleAnswer, if_pos htype]

theorem handleAnswer_cache (st : ResolverState) (now : Nat) (answer : Answer)
    (htype : answer.type = "A" ∨ answer.type = "AAAA") :
    (handleAnswer st now answer).1.cache =
      cachePut st.cache st.options.cacheSize
        (cacheKey (jsToLower answer.name) answer.type)
        ⟨answer.data, now + effectiveTtl answer.ttl st.options.ttl * 1000⟩ := by
  rw [handleAnswer_of_addr_type st now answer htype]
  exact settlePending_cache _ _ _

theorem mapGet_cachePut_self (cache : List (String × CacheEntry)) (capacity : Nat)
    (key : String) (e : CacheEntry) (hsize : cache.length ≤ capacity)
    (hpos : 0 < capacity) :
    mapGet (cachePut cache capacity key e) key = some e := by
  cases hg : mapGet cache key with
  | some w =>
      rw [cachePut_of_some cache capacity key e w hg hsize]
      exact mapGet_mapSet_self cache key e
  | none =>
      by_cases hroom : cache.length < capacity
      · rw [cachePut_of_none_room cache capacity key e hg hroom]
        rw [mapGet_append_of_none cache [(key, e)] key hg]
        simp [mapGet]
      · have hfull : cache.length = capacity := by omega
        cases cache with
        | nil => simp at hfull; omega
        | cons kv rest =>
            obtain ⟨k1, v1⟩ := kv
            rw [cachePut_of_none_full k1 v1 rest capacity key e hg hfull]
            simp only [mapGet] at hg
            by_cases hk : k1 = key
            · simp [hk] at hg
            · simp only [hk, if_false] at hg
              rw [mapGet_append_of_none rest [(key, e)] key hg]
              simp [mapGet]

/-- C2: for every cache state with size at most capacity, a put keeps
the size at most capacity; inserting a new distinct key into a full
cache evicts exactly the earliest-inserted entry (FIFO over keys,
irrespective of TTL or recency), leaving size equal to capacity. -/
theorem cache_put_bounded_fifo (cache : List (String × CacheEntry)) (capacity : Nat)
    (key : String) (e : CacheEntry) (hsize : cache.length ≤ capacity) :
    (cachePut cache capacity key e).length ≤ capacity ∧
    (mapGet cache key = none → cache.length = capacity → 0 < capacity →
      cachePut cache capacity key e = cache.tail ++ [(key, e)] ∧
      (cachePut cache capacity key e).length = capacity) := by
  constructor
  · cases hg : mapGet cache key with
    | some w =>
        rw [cachePut_of_some cache capacity key e w hg hsize]
        rw [length_mapSet_of_some cache key e w hg]
        exact hsize
    | none =>
        by_cases hroom : cache.length < capacity
        · rw [cachePut_of_none_room cache capacity key e hg hroom]
          simp only [List.length_append, List.length_cons, List.length_nil]
          omega
        · have hfull : cache.length = capacity := by omega
          cases cache with
          | nil =>
              simp only [List.length_nil] at hfull
              rw [cachePut]
              simp [mapSet, mapDelete, ← hfull]
          | cons kv rest =>
              obtain ⟨k1, v1⟩ := kv
              rw [cachePut_of_none_full k1 v1 rest capacity key e hg hfull]
              simp only [List.length_cons] at hfull
              simp only [List.length_append, List.length_cons, List.length_nil]
              omega
  · intro hnone hfull hpos
    cases cache with
    | nil =>
        simp only [List.length_nil] at hfull
        omega
    | cons kv rest =>
        obtain ⟨k1, v1⟩ := kv
        rw [cachePut_of_none_full k1 v1 rest capacity key e hnone hfull]
        simp only [List.length_cons] at hfull
        constructor
        · rfl
        · simp only [List.length_append, List.length_cons, List.length_nil]
          omega

/-- Concrete instantiation of `cache_put_bounded_fifo`: a full
two-entry cache receives a third distinct key; the oldest entry is
evicted and the size stays at capacity. -/
theorem cache_put_bounded_fifo_witness :
    ([("a.local:A", (⟨"192.168.0.1", 50⟩ : CacheEntry)),
      ("b.local:A", ⟨"192.168.0.2", 60⟩)].length ≤ 2) ∧
    (cachePut [("a.local:A", ⟨"192.168.0.1", 50⟩), ("b.local:A", ⟨"192.168.0.2", 60⟩)] 2
        "c.local:A" ⟨"192.168.0.3", 70⟩ =
      [("b.local:A", ⟨"192.168.0.2", 60⟩), ("c.local:A", ⟨"192.168.0.3", 70⟩)] ∧
     (cachePut [("a.local:A", ⟨"192.168.0.1", 50⟩), ("b.local:A", ⟨"192.168.0.2", 60⟩)] 2
        "c.local:A" ⟨"192.168.0.3", 70⟩).length = 2) :=
  ⟨by decide,
   (cache_put_bounded_fifo
      [("a.local:A", ⟨"192.168.0.1", 50⟩), ("b.local:A", ⟨"192.168.0.2", 60⟩)] 2
      "c.local:A" ⟨"192.168.0.3", 70⟩ (by decide)).2 (by decide) (by decide) (by decide)⟩

/-- C9: ingesting an answer for a key already present overwrites the
address and expiry, leaves the size unchanged, evicts nothing, and
keeps the key at its original position in the FIFO eviction order. -/
theorem reinsert_preserves_fifo (st : ResolverState) (now : Nat) (answer : Answer)
    (w : CacheEntry) (htype : answer.type = "A" ∨ answer.type = "AAAA")
    (hpresent : mapGet st.cache (cacheKey (jsToLower answer.name) answer.type) = some w)
    (hsize : st.cache.length ≤ st.options.cacheSize) :
    (handleAnswer st now answer).1.cache.map Prod.fst = st.cache.map Prod.fst ∧
    (handleAnswer st now answer).1.cache.length = st.cache.length ∧
    mapGet (handleAnswer st now answer).1.cache
        (cacheKey (jsToLower answer.name) answer.type) =
      some ⟨answer.data, now + effectiveTtl answer.ttl st.options.ttl * 1000⟩ ∧
    (∀ k, k ≠ cacheKey (jsToLower answer.name) answer.type →
      mapGet (handleAnswer st now answer).1.cache k = mapGet st.cache k) := by
  rw [handleAnswer_cache st now answer htype]
  rw [cachePut_of_some st.cache st.options.cacheSize
    (cacheKey (jsToLower answer.name) answer.type)
    ⟨answer.data, now + effectiveTtl answer.ttl st.options.ttl * 1000⟩ w hpresent hsize]
  refine ⟨?_, ?_, ?_, ?_⟩
  · exact map_fst_mapSet_of_some st.cache _ _ w hpresent
  · exact length_mapSet_of_some st.cache _ _ w hpresent
  · exact mapGet_mapSet_self st.cache _ _
  · intro k hk
    exact mapGet_mapSet_ne st.cache _ k _ hk

/-- Concrete instantiation of `reinsert_preserves_fifo`: overwriting
the older of two cached keys leaves it in front of the eviction
order. -/
theorem reinsert_preserves_fifo_witness :
    ((handleAnswer
        { options := ⟨120, 1000, 5000⟩
          cache := [("x.local:A", ⟨"10.0.0.1", 40⟩), ("y.local:A", ⟨"10.0.0.2", 40⟩)]
          pendingQueries := []
          promises := []
          timers := []
          nextId := 0
          running := true } 100 ⟨"x.local", "A", "10.0.0.9", some 7⟩).1.cache.map Prod.fst =
      ["x.local:A", "y.local:A"]) ∧
    ((handleAnswer
        { options := ⟨120, 1000, 5000⟩
          cache := [("x.local:A", ⟨"10.0.0.1", 40⟩), ("y.local:A", ⟨"10.0.0.2", 40⟩)]
          pendingQueries := []
          promises := []
          timers := []
          nextId := 0
          running := true } 100 ⟨"x.local", "A", "10.0.0.9", some 7⟩).1.cache.length = 2) := by
  have h := reinsert_preserves_fifo
    { options := ⟨120, 1000, 5000⟩
      cache := [("x.local:A", ⟨"10.0.0.1", 40⟩), ("y.local:A", ⟨"10.0.0.2", 40⟩)]
      pendingQueries := []
      promises := []
      timers := []
      nextId := 0
      running := true } 100 ⟨"x.local", "A", "10.0.0.9", some 7⟩ ⟨"10.0.0.1", 40⟩
    (by decide) (by decide) (by decide)
  exact ⟨by rw [h.1]; decide, by rw [h.2.1]; decide⟩

/-- C7: the cache entry written by ingestion carries the answer's own
TTL when present and positive and the configured default TTL
otherwise, with expiry equal to the ingestion time plus that TTL in
seconds (milliseconds internally). -/
theorem ttl_selection (st : ResolverState) (now : Nat) (answer : Answer)
    (htype : answer.type = "A" ∨ answer.type = "AAAA")
    (hsize : st.cache.length ≤ st.options.cacheSize)
    (hpos : 0 < st.options.cacheSize) :
    mapGet (handleAnswer st now answer).1.cache
        (cacheKey (jsToLower answer.name) answer.type) =
      some ⟨answer.data, now + effectiveTtl answer.ttl st.options.ttl * 1000⟩ ∧
    (∀ t : Nat, 0 < t → effectiveTtl (some t) st.options.ttl = t) ∧
    effectiveTtl (some 0) st.options.ttl = st.options.ttl ∧
    effectiveTtl none st.options.ttl = st.options.ttl := by
  refine ⟨?_, ?_, ?_, ?_⟩
  · rw [handleAnswer_cache st now answer htype]
    exact mapGet_cachePut_self st.cache st.options.cacheSize _ _ hsize hpos
  · intro t ht
    have : t ≠ 0 := by omega
    simp [effectiveTtl, this]
  · simp [effectiveTtl]
  · simp [effectiveTtl]

/-- Concrete instantiation of `ttl_selection`: a record with TTL 7 is
cached to expire at `now + 7000` ms. -/
theorem ttl_selection_witness :
    mapGet ((handleAnswer
        { options := ⟨120, 1000, 5000⟩
          cache := []
          pendingQueries := []
          promises := []
          timers := []
          nextId := 0
          running := true } 100 ⟨"x.local", "A", "10.0.0.9", some 7⟩).1.cache) "x.local:A" =
      some ⟨"10.0.0.9", 100 + 7 * 1000⟩ := by
  have h := ttl_selection
    { options := ⟨120, 1000, 5000⟩
      cache := []
      pendingQueries := []
      promises := []
      timers := []
      nextId := 0
      running := true } 100 ⟨"x.local", "A", "10.0.0.9", some 7⟩
    (by decide) (by decide) (by decide)
  have h1 := h.1
  have hkey : cacheKey (jsToLower "x.local") "A" = "x.local:A" := by decide
  have httl : effectiveTtl (some 7) 120 = 7 := by decide
  rw [hkey] at h1
  simpa [httl] using h1

/-! Helper lemmas about `resolve`. -/

theorem resolve_running (st : ResolverState) (now : Nat) (name0 type : String)
    (h : st.running = true) :
    resolve st now name0 type =
      (match cacheHitCheck st.cache (cacheKey (normalizeName name0) type) now with
       | some addr => ⟨.cacheHit addr, st, []⟩
       | none =>
           resolveQueryPath st now (normalizeName name0) type
             (cacheKey (normalizeName name0) type)) := by
  simp [resolve, h]

theorem resolveQueryPath_not_cacheHit (st : ResolverState) (now : Nat)
    (name type key a : String) :
    (resolveQueryPath st now name type key).outcome ≠ .cacheHit a := by
  unfold resolveQueryPath
  cases mapGet st.pendingQueries key <;> simp

theorem resolve_congr (st : ResolverState) (now : Nat) (a b type : String)
    (hab : normalizeName a = normalizeName b) :
    resolve st now a type = resolve st now b type := by
  simp only [resolve, hab]

/-- C3: with a cache entry present for the queried key, `resolve`
returns the cached address synchronously with no transport send
exactly when `now` is strictly before the entry's expiry; at or after
the expiry it falls through to the normal query cycle. -/
theorem cache_freshness (st : ResolverState) (now : Nat) (name0 type : String)
    (e : CacheEntry) (hrun : st.running = true)
    (hget : mapGet st.cache (cacheKey (normalizeName name0) type) = some e) :
    ((now < e.expires) ↔
      ((resolve st now name0 type).outcome = .cacheHit e.address ∧
       (resolve st now name0 type).sent = [] ∧
       (resolve st now name0 type).state = st)) ∧
    (e.expires ≤ now →
      resolve st now name0 type =
        resolveQueryPath st now (normalizeName name0) type
          (cacheKey (normalizeName name0) type)) := by
  rw [resolve_running st now name0 type hrun]
  by_cases hf : now < e.expires
  · have hchk : cacheHitCheck st.cache (cacheKey (normalizeName name0) type) now
        = some e.address := by
      simp [cacheHitCheck, hget, hf]
    rw [hchk]
    constructor
    · simp [hf]
    · intro h
      omega
  · have hchk : cacheHitCheck st.cache (cacheKey (normalizeName name0) type) now
        = none := by
      simp [cacheHitCheck, hget, hf]
    rw [hchk]
    constructor
    · constructor
      · intro h
        exact absurd h hf
      · rintro ⟨h1, -, -⟩
        exact absurd h1 (resolveQueryPath_not_cacheHit st now _ type _ e.address)
    · intro _
      rfl

/-- Concrete instantiation of `cache_freshness`: a fresh entry is
returned synchronously, without touching the state or the
transport. -/
theorem cache_freshness_witness :
    (resolve ⟨⟨120, 1000, 5000⟩, [("host.local:A", ⟨"10.1.1.1", 500⟩)], [], [], [], 0, true⟩
        100 "host" "A").outcome = .cacheHit "10.1.1.1" ∧
    (resolve ⟨⟨120, 1000, 5000⟩, [("host.local:A", ⟨"10.1.1.1", 500⟩)], [], [], [], 0, true⟩
        100 "host" "A").sent = [] ∧
    (resolve ⟨⟨120, 1000, 5000⟩, [("host.local:A", ⟨"10.1.1.1", 500⟩)], [], [], [], 0, true⟩
        100 "host" "A").state =
      ⟨⟨120, 1000, 5000⟩, [("host.local:A", ⟨"10.1.1.1", 500⟩)], [], [], [], 0, true⟩ :=
  (cache_freshness
    ⟨⟨120, 1000, 5000⟩, [("host.local:A", ⟨"10.1.1.1", 500⟩)], [], [], [], 0, true⟩
    100 "host" "A" ⟨"10.1.1.1", 500⟩ (by decide) (by decide)).1.mp (by decide)

/-- C6 counterexample: for a hostname that already carries the
`.local` suffix, calling `resolve` with the name plus one more copy of
the suffix produces a different composite key, so the claim's
universal statement over every hostname fails at `"a.local"`. -/
theorem normalize_suffix_counterexample :
    cacheKey (normalizeName ("a.local" ++ localSuffix)) "A" ≠
      cacheKey (normalizeName "a.local") "A" := by decide

/-- C6 amended: for every hostname whose lowercased form does not
already end in `.local`, normalization is idempotent, and any string
whose case-fold agrees with the hostname or with the hostname plus the
suffix — the hostname itself, the hostname plus the suffix, and every
case variant of either, including variants of the suffix's own case —
normalizes to the same string, so `resolve` treats them all
identically (same composite key in cache and pending table). -/
theorem normalize_idempotent_amended (h : String)
    (hnl : jsEndsWith (jsToLower h) localSuffix = false) :
    normalizeName (normalizeName h) = normalizeName h ∧
    normalizeName (h ++ localSuffix) = normalizeName h ∧
    (∀ w : String,
      jsToLower w = jsToLower h ∨ jsToLower w = jsToLower (h ++ localSuffix) →
      normalizeName w = normalizeName h ∧
      ∀ st now type, resolve st now w type = resolve st now h type) := by
  have hns : normalizeName h = jsToLower h ++ localSuffix :=
    normalizeName_not_suffixed h hnl
  have happ : normalizeName (h ++ localSuffix) = normalizeName h := by
    rw [normalizeName_of_appended, hns]
  refine ⟨normalizeName_idem h, happ, ?_⟩
  intro w hw
  have hwn : normalizeName w = normalizeName h := by
    rcases hw with hw | hw
    · simp only [normalizeName, hw]
    · have hw2 : jsToLower w = jsToLower h ++ localSuffix := by
        rw [hw, jsToLower_append, jsToLower_localSuffix]
      simp only [normalizeName, hw2, jsEndsWith_append_self, if_true]
      exact hns.symm
  exact ⟨hwn, fun st now type => resolve_congr st now w h type hwn⟩

/-- Concrete instantiation of `normalize_idempotent_amended` at
hostname `MyHost`: the upper-case suffixed variant `MYHOST.LOCAL`, the
suffixed form, and the bare case variant `MYHOST` all normalize like
`MyHost`. -/
theorem normalize_idempotent_amended_witness :
    (jsEndsWith (jsToLower "MyHost") localSuffix = false) ∧
    (jsToLower "MYHOST.LOCAL" = jsToLower ("MyHost" ++ localSuffix)) ∧
    normalizeName "MYHOST.LOCAL" = normalizeName "MyHost" ∧
    normalizeName ("MyHost" ++ localSuffix) = normalizeName "MyHost" ∧
    normalizeName "MYHOST" = normalizeName "MyHost" :=
  ⟨by decide, by decide,
   ((normalize_idempotent_amended "MyHost" (by decide)).2.2 "MYHOST.LOCAL"
     (Or.inr (by decide))).1,
   (normalize_idempotent_amended "MyHost" (by decide)).2.1,
   ((normalize_idempotent_amended "MyHost" (by decide)).2.2 "MYHOST"
     (Or.inl (by decide))).1⟩

/-! Field-level descriptions of one ingestion step. -/

theorem settlePending_of_none (st : ResolverState) (key addr : String)
    (h : mapGet st.pendingQueries key = none) : settlePending st key addr = st := by
  simp [settlePending, h]

theorem settlePending_of_some (st : ResolverState) (key addr : String)
    (ent : PendingEntry) (h : mapGet st.pendingQueries key = some ent) :
    settlePending st key addr = pendingResolve st key ent addr := by
  simp [settlePending, h]

theorem handleAnswer_fields_pending (st : ResolverState) (now : Nat) (answer : Answer)
    (htype : answer.type = "A" ∨ answer.type = "AAAA") (ent : PendingEntry)
    (hp : mapGet st.pendingQueries (cacheKey (jsToLower answer.name) answer.type)
      = some ent) :
    (handleAnswer st now answer).1.pendingQueries
        = mapDelete st.pendingQueries (cacheKey (jsToLower answer.name) answer.type) ∧
    (handleAnswer st now answer).1.promises
        = settleResolve st.promises ent.promiseId answer.data ∧
    (handleAnswer st now answer).1.timers = mapDelete st.timers ent.timerId ∧
    (handleAnswer st now answer).1.options = st.options ∧
    (handleAnswer st now answer).1.running = st.running := by
  rw [handleAnswer_of_addr_type st now answer htype]
  rw [show (settlePending
        { st with
            cache := cachePut st.cache st.options.cacheSize
                (cacheKey (jsToLower answer.name) answer.type)
                ⟨answer.data, now + effectiveTtl answer.ttl st.options.ttl * 1000⟩ }
        (cacheKey (jsToLower answer.name) answer.type) answer.data)
      = pendingResolve
        { st with
            cache := cachePut st.cache st.options.cacheSize
                (cacheKey (jsToLower answer.name) answer.type)
                ⟨answer.data, now + effectiveTtl answer.ttl st.options.ttl * 1000⟩ }
        (cacheKey (jsToLower answer.name) answer.type) ent answer.data
    from settlePending_of_some _ _ _ ent hp]
  exact ⟨rfl, rfl, rfl, rfl, rfl⟩

theorem handleAnswer_fields_nopending (st : ResolverState) (now : Nat) (answer : Answer)
    (htype : answer.type = "A" ∨ answer.type = "AAAA")
    (hp : mapGet st.pendingQueries (cacheKey (jsToLower answer.name) answer.type)
      = none) :
    (handleAnswer st now answer).1.pendingQueries = st.pendingQueries ∧
    (handleAnswer st now answer).1.promises = st.promises ∧
    (handleAnswer st now answer).1.timers = st.timers ∧
    (handleAnswer st now answer).1.options = st.options ∧
    (handleAnswer st now answer).1.running = st.running := by
  rw [handleAnswer_of_addr_type st now answer htype]
  rw [settlePending_of_none
    { st with
        cache := cachePut st.cache st.options.cacheSize
            (cacheKey (jsToLower answer.name) answer.type)
            ⟨answer.data, now + effectiveTtl answer.ttl st.options.ttl * 1000⟩ }
    (cacheKey (jsToLower answer.name) answer.type) answer.data hp]
  exact ⟨rfl, rfl, rfl, rfl, rfl⟩

theorem fireTimer_of_none (st : ResolverState) (tid : Nat)
    (h : mapGet st.timers tid = none) : fireTimer st tid = st := by
  simp [fireTimer, h]

/-- C4: an armed timeout firing for a still-unsettled key rejects the
promise with the timeout error naming the queried hostname exactly
once, removes the pending entry and spends the timer; a matching
response ingested afterwards performs no settlement, and a timeout
whose timer was cleared by an earlier response settlement is a
no-op. -/
theorem timeout_settles_once (st : ResolverState) (tid : Nat) (info : TimerInfo)
    (htimer : mapGet st.timers tid = some info)
    (hprom : mapGet st.promises info.promiseId = some .unsettled)
    (htk : (st.timers.map Prod.fst).Nodup)
    (hpk : (st.pendingQueries.map Prod.fst).Nodup) :
    mapGet (fireTimer st tid).promises info.promiseId
        = some (.rejectedWith (.timeoutErr info.name)) ∧
    mapGet (fireTimer st tid).pendingQueries info.key = none ∧
    mapGet (fireTimer st tid).timers tid = none ∧
    fireTimer (fireTimer st tid) tid = fireTimer st tid ∧
    (∀ (answer : Answer) (now2 : Nat),
      cacheKey (jsToLower answer.name) answer.type = info.key →
      (handleAnswer (fireTimer st tid) now2 answer).1.promises
        = (fireTimer st tid).promises) ∧
    (∀ (key0 : String) (ent : PendingEntry) (addr : String),
      mapGet st.pendingQueries key0 = some ent →
      fireTimer (pendingResolve st key0 ent addr) ent.timerId
        = pendingResolve st key0 ent addr) := by
  have hf : fireTimer st tid =
      { st with
        timers := mapDelete st.timers tid
        pendingQueries := mapDelete st.pendingQueries info.key
        promises := settleReject st.promises info.promiseId (.timeoutErr info.name) } := by
    simp [fireTimer, htimer]
  have h1 : mapGet (fireTimer st tid).promises info.promiseId
      = some (.rejectedWith (.timeoutErr info.name)) := by
    rw [hf]
    exact settleReject_get_self _ _ _ hprom
  have h2 : mapGet (fireTimer st tid).pendingQueries info.key = none := by
    rw [hf]
    exact mapGet_mapDelete_self _ _ hpk
  have h3 : mapGet (fireTimer st tid).timers tid = none := by
    rw [hf]
    exact mapGet_mapDelete_self _ _ htk
  refine ⟨h1, h2, h3, fireTimer_of_none _ tid h3, ?_, ?_⟩
  · intro answer now2 hkey
    by_cases htype : answer.type = "A" ∨ answer.type = "AAAA"
    · have hpnone : mapGet (fireTimer st tid).pendingQueries
          (cacheKey (jsToLower answer.name) answer.type) = none := by
        rw [hkey]
        exact h2
      exact (handleAnswer_fields_nopending _ now2 answer htype hpnone).2.1
    · push_neg at htype
      rw [handleAnswer_of_other_type _ now2 answer htype.1 htype.2]
  · intro key0 ent addr hp0
    apply fireTimer_of_none
    show mapGet (mapDelete st.timers ent.timerId) ent.timerId = none
    exact mapGet_mapDelete_self _ _ htk

/-- Concrete instantiation of `timeout_settles_once`: a pending
`x.local:A` query times out and is rejected and removed. -/
theorem timeout_settles_once_witness :
    mapGet (fireTimer ⟨⟨120, 1000, 5000⟩, [], [("x.local:A", ⟨0, 1⟩)], [(0, .unsettled)],
        [(1, ⟨"x.local:A", "x.local", 0, 5000⟩)], 2, true⟩ 1).promises 0
      = some (.rejectedWith (.timeoutErr "x.local")) ∧
    mapGet (fireTimer ⟨⟨120, 1000, 5000⟩, [], [("x.local:A", ⟨0, 1⟩)], [(0, .unsettled)],
        [(1, ⟨"x.local:A", "x.local", 0, 5000⟩)], 2, true⟩ 1).pendingQueries "x.local:A"
      = none ∧
    mapGet (fireTimer ⟨⟨120, 1000, 5000⟩, [], [("x.local:A", ⟨0, 1⟩)], [(0, .unsettled)],
        [(1, ⟨"x.local:A", "x.local", 0, 5000⟩)], 2, true⟩ 1).timers 1 = none :=
  have h := timeout_settles_once
    ⟨⟨120, 1000, 5000⟩, [], [("x.local:A", ⟨0, 1⟩)], [(0, .unsettled)],
      [(1, ⟨"x.local:A", "x.local", 0, 5000⟩)], 2, true⟩ 1
    ⟨"x.local:A", "x.local", 0, 5000⟩ (by decide) (by decide) (by decide) (by decide)
  ⟨h.1, h.2.1, h.2.2.1⟩

/-! Helper lemmas about `stop`. -/

theorem stopLoop_cache (entries : List (String × PendingEntry)) (st : ResolverState) :
    (stopLoop entries st).cache = st.cache := by
  induction entries generalizing st with
  | nil => rfl
  | cons kv rest ih =>
      obtain ⟨k0, ent⟩ := kv
      simp only [stopLoop]
      rw [ih]

theorem stopLoop_pendingQueries (entries : List (String × PendingEntry))
    (st : ResolverState) :
    (stopLoop entries st).pendingQueries = st.pendingQueries := by
  induction entries generalizing st with
  | nil => rfl
  | cons kv rest ih =>
      obtain ⟨k0, ent⟩ := kv
      simp only [stopLoop]
      rw [ih]

theorem stopLoop_running (entries : List (String × PendingEntry)) (st : ResolverState) :
    (stopLoop entries st).running = st.running := by
  induction entries generalizing st with
  | nil => rfl
  | cons kv rest ih =>
      obtain ⟨k0, ent⟩ := kv
      simp only [stopLoop]
      rw [ih]

theorem stopLoop_keeps_stopped (entries : List (String × PendingEntry))
    (st : ResolverState) (pid : Nat)
    (h : mapGet st.promises pid = some (.rejectedWith .stoppedErr)) :
    mapGet (stopLoop entries st).promises pid = some (.rejectedWith .stoppedErr) := by
  induction entries generalizing st with
  | nil => exact h
  | cons kv rest ih =>
      obtain ⟨k0, ent⟩ := kv
      simp only [stopLoop]
      apply ih
      show mapGet (settleReject st.promises ent.promiseId .stoppedErr) pid
        = some (.rejectedWith .stoppedErr)
      by_cases hp : pid = ent.promiseId
      · subst hp
        rw [settleReject_of_not_unsettled _ _ _ (by rw [h]; simp)]
        exact h
      · rw [settleReject_get_ne _ _ _ _ hp]
        exact h

theorem stopLoop_rejects (entries : List (String × PendingEntry)) (st : ResolverState)
    (kv : String × PendingEntry) (hmem : kv ∈ entries)
    (hall : ∀ kv2 ∈ entries,
      mapGet st.promises kv2.2.promiseId = some .unsettled
        ∨ mapGet st.promises kv2.2.promiseId = some (.rejectedWith .stoppedErr)) :
    mapGet (stopLoop entries st).promises kv.2.promiseId
      = some (.rejectedWith .stoppedErr) := by
  induction entries generalizing st with
  | nil => cases hmem
  | cons kv0 rest ih =>
      obtain ⟨k0, ent0⟩ := kv0
      have hstep : mapGet (settleReject st.promises ent0.promiseId .stoppedErr)
          ent0.promiseId = some (.rejectedWith .stoppedErr) := by
        rcases hall (k0, ent0) (List.mem_cons_self _ _) with hu | hs
        · exact settleReject_get_self _ _ _ hu
        · rw [settleReject_of_not_unsettled _ _ _ (by rw [hs]; simp)]
          exact hs
      simp only [stopLoop]
      rcases List.mem_cons.mp hmem with heq | hmem2
      · subst heq
        exact stopLoop_keeps_stopped rest _ _ hstep
      · refine ih _ hmem2 ?_
        intro kv2 hkv2
        by_cases hpe : kv2.2.promiseId = ent0.promiseId
        · right
          show mapGet (settleReject st.promises ent0.promiseId .stoppedErr) kv2.2.promiseId
            = some (.rejectedWith .stoppedErr)
          rw [hpe]
          exact hstep
        · rcases hall kv2 (List.mem_cons_of_mem _ hkv2) with hu | hs
          · left
            show mapGet (settleReject st.promises ent0.promiseId .stoppedErr)
              kv2.2.promiseId = some .unsettled
            rw [settleReject_get_ne _ _ _ _ hpe]
            exact hu
          · right
            show mapGet (settleReject st.promises ent0.promiseId .stoppedErr)
              kv2.2.promiseId = some (.rejectedWith .stoppedErr)
            rw [settleReject_get_ne _ _ _ _ hpe]
            exact hs

/-- C5: stopping with N pending queries rejects every one of them with
the stopped error, empties the pending-query table, releases the
transport, and leaves every cache entry untouched. -/
theorem stop_semantics (st : ResolverState)
    (hps : ∀ kv ∈ st.pendingQueries,
      mapGet st.promises kv.2.promiseId = some .unsettled) :
    (stop st).pendingQueries = [] ∧
    (stop st).cache = st.cache ∧
    (stop st).running = false ∧
    ∀ kv ∈ st.pendingQueries,
      mapGet (stop st).promises kv.2.promiseId = some (.rejectedWith .stoppedErr) := by
  refine ⟨?_, ?_, rfl, ?_⟩
  · show (stopLoop st.pendingQueries { st with pendingQueries := [] }).pendingQueries = []
    rw [stopLoop_pendingQueries]
  · show (stopLoop st.pendingQueries { st with pendingQueries := [] }).cache = st.cache
    rw [stopLoop_cache]
  · intro kv hmem
    show mapGet (stopLoop st.pendingQueries { st with pendingQueries := [] }).promises
      kv.2.promiseId = some (.rejectedWith .stoppedErr)
    apply stopLoop_rejects st.pendingQueries _ kv hmem
    intro kv2 hkv2
    left
    exact hps kv2 hkv2

/-- Concrete instantiation of `stop_semantics`: stopping with two
pending queries rejects both and keeps the cached entry. -/
theorem stop_semantics_witness :
    (stop ⟨⟨120, 1000, 5000⟩, [("c.local:A", ⟨"10.0.0.3", 999⟩)],
        [("x.local:A", ⟨0, 1⟩), ("y.local:AAAA", ⟨2, 3⟩)],
        [(0, .unsettled), (2, .unsettled)],
        [(1, ⟨"x.local:A", "x.local", 0, 5000⟩), (3, ⟨"y.local:AAAA", "y.local", 2, 5000⟩)],
        4, true⟩).pendingQueries = [] ∧
    (stop ⟨⟨120, 1000, 5000⟩, [("c.local:A", ⟨"10.0.0.3", 999⟩)],
        [("x.local:A", ⟨0, 1⟩), ("y.local:AAAA", ⟨2, 3⟩)],
        [(0, .unsettled), (2, .unsettled)],
        [(1, ⟨"x.local:A", "x.local", 0, 5000⟩), (3, ⟨"y.local:AAAA", "y.local", 2, 5000⟩)],
        4, true⟩).cache = [("c.local:A", ⟨"10.0.0.3", 999⟩)] ∧
    (stop ⟨⟨120, 1000, 5000⟩, [("c.local:A", ⟨"10.0.0.3", 999⟩)],
        [("x.local:A", ⟨0, 1⟩), ("y.local:AAAA", ⟨2, 3⟩)],
        [(0, .unsettled), (2, .unsettled)],
        [(1, ⟨"x.local:A", "x.local", 0, 5000⟩), (3, ⟨"y.local:AAAA", "y.local", 2, 5000⟩)],
        4, true⟩).running = false ∧
    ∀ kv ∈ ([("x.local:A", (⟨0, 1⟩ : PendingEntry)), ("y.local:AAAA", ⟨2, 3⟩)] :
        List (String × PendingEntry)),
      mapGet (stop ⟨⟨120, 1000, 5000⟩, [("c.local:A", ⟨"10.0.0.3", 999⟩)],
          [("x.local:A", ⟨0, 1⟩), ("y.local:AAAA", ⟨2, 3⟩)],
          [(0, .unsettled), (2, .unsettled)],
          [(1, ⟨"x.local:A", "x.local", 0, 5000⟩),
           (3, ⟨"y.local:AAAA", "y.local", 2, 5000⟩)],
          4, true⟩).promises kv.2.promiseId = some (.rejectedWith .stoppedErr) :=
  stop_semantics
    ⟨⟨120, 1000, 5000⟩, [("c.local:A", ⟨"10.0.0.3", 999⟩)],
      [("x.local:A", ⟨0, 1⟩), ("y.local:AAAA", ⟨2, 3⟩)],
      [(0, .unsettled), (2, .unsettled)],
      [(1, ⟨"x.local:A", "x.local", 0, 5000⟩), (3, ⟨"y.local:AAAA", "y.local", 2, 5000⟩)],
      4, true⟩ (by decide)

theorem resolveQueryPath_of_pending (st : ResolverState) (now : Nat)
    (name type key : String) (ent : PendingEntry)
    (h : mapGet st.pendingQueries key = some ent) :
    resolveQueryPath st now name type key = ⟨.joined ent.promiseId, st, []⟩ := by
  simp [resolveQueryPath, h]

theorem resolveQueryPath_of_none (st : ResolverState) (now : Nat)
    (name type key : String) (h : mapGet st.pendingQueries key = none) :
    resolveQueryPath st now name type key =
      ⟨.newQuery st.nextId,
       { st with
         nextId := st.nextId + 2
         promises := st.promises ++ [(st.nextId, .unsettled)]
         timers := st.timers
           ++ [(st.nextId + 1, ⟨key, name, st.nextId, now + st.options.timeout⟩)]
         pendingQueries := mapSet st.pendingQueries key ⟨st.nextId, st.nextId + 1⟩ },
       [⟨name, type⟩]⟩ := by
  simp [resolveQueryPath, h]

theorem resolve_joins (st : ResolverState) (now2 : Nat) (name1 name0 type : String)
    (hname1 : normalizeName name1 = normalizeName name0)
    (hrun2 : st.running = true)
    (hmiss2 : cacheHitCheck st.cache (cacheKey (normalizeName name0) type) now2 = none)
    (ent : PendingEntry)
    (hp : mapGet st.pendingQueries (cacheKey (normalizeName name0) type) = some ent) :
    resolve st now2 name1 type = ⟨.joined ent.promiseId, st, []⟩ := by
  rw [resolve_congr st now2 name1 name0 type hname1,
    resolve_running st now2 name0 type hrun2, hmiss2,
    resolveQueryPath_of_pending st now2 (normalizeName name0) type _ ent hp]

/-- C1: a `resolve` call that finds neither a fresh cache entry nor an
existing pending entry creates exactly one pending entry and issues
exactly one transport query; a further `resolve` for the same key made
while that entry exists issues no query, changes nothing, and joins
the very same promise; and key distinctness of the pending table (at
most one pending query per key) is preserved. -/
theorem resolve_dedup (st : ResolverState) (now now2 : Nat) (name0 name1 type : String)
    (hrun : st.running = true)
    (hmiss : cacheHitCheck st.cache (cacheKey (normalizeName name0) type) now = none)
    (hnp : mapGet st.pendingQueries (cacheKey (normalizeName name0) type) = none)
    (hname1 : normalizeName name1 = normalizeName name0)
    (hmiss2 : cacheHitCheck st.cache (cacheKey (normalizeName name0) type) now2 = none) :
    (resolve st now name0 type).outcome = .newQuery st.nextId ∧
    (resolve st now name0 type).sent = [⟨normalizeName name0, type⟩] ∧
    mapGet (resolve st now name0 type).state.pendingQueries
        (cacheKey (normalizeName name0) type) = some ⟨st.nextId, st.nextId + 1⟩ ∧
    (resolve (resolve st now name0 type).state now2 name1 type).outcome
        = .joined st.nextId ∧
    (resolve (resolve st now name0 type).state now2 name1 type).sent = [] ∧
    (resolve (resolve st now name0 type).state now2 name1 type).state
        = (resolve st now name0 type).state ∧
    ((st.pendingQueries.map Prod.fst).Nodup →
      ((resolve st now name0 type).state.pendingQueries.map Prod.fst).Nodup) := by
  have h1 : resolve st now name0 type =
      ⟨.newQuery st.nextId,
       { st with
         nextId := st.nextId + 2
         promises := st.promises ++ [(st.nextId, .unsettled)]
         timers := st.timers
           ++ [(st.nextId + 1,
                ⟨cacheKey (normalizeName name0) type, normalizeName name0, st.nextId,
                 now + st.options.timeout⟩)]
         pendingQueries := mapSet st.pendingQueries (cacheKey (normalizeName name0) type)
           ⟨st.nextId, st.nextId + 1⟩ },
       [⟨normalizeName name0, type⟩]⟩ := by
    rw [resolve_running st now name0 type hrun, hmiss]
    exact resolveQueryPath_of_none st now (normalizeName name0) type _ hnp
  rw [h1]
  have hpend : mapGet
      (mapSet st.pendingQueries (cacheKey (normalizeName name0) type)
        (⟨st.nextId, st.nextId + 1⟩ : PendingEntry))
      (cacheKey (normalizeName name0) type) = some ⟨st.nextId, st.nextId + 1⟩ :=
    mapGet_mapSet_self st.pendingQueries _ _
  have h2 : resolve
      { st with
        nextId := st.nextId + 2
        promises := st.promises ++ [(st.nextId, .unsettled)]
        timers := st.timers
          ++ [(st.nextId + 1,
               ⟨cacheKey (normalizeName name0) type, normalizeName name0, st.nextId,
                now + st.options.timeout⟩)]
        pendingQueries := mapSet st.pendingQueries (cacheKey (normalizeName name0) type)
          ⟨st.nextId, st.nextId + 1⟩ } now2 name1 type
      = ⟨.joined st.nextId,
         { st with
           nextId := st.nextId + 2
           promises := st.promises ++ [(st.nextId, .unsettled)]
           timers := st.timers
             ++ [(st.nextId + 1,
                  ⟨cacheKey (normalizeName name0) type, normalizeName name0, st.nextId,
                   now + st.options.timeout⟩)]
           pendingQueries := mapSet st.pendingQueries
             (cacheKey (normalizeName name0) type) ⟨st.nextId, st.nextId + 1⟩ }, []⟩ :=
    resolve_joins
      { st with
        nextId := st.nextId + 2
        promises := st.promises ++ [(st.nextId, .unsettled)]
        timers := st.timers
          ++ [(st.nextId + 1,
               ⟨cacheKey (normalizeName name0) type, normalizeName name0, st.nextId,
                now + st.options.timeout⟩)]
        pendingQueries := mapSet st.pendingQueries (cacheKey (normalizeName name0) type)
          ⟨st.nextId, st.nextId + 1⟩ } now2 name1 name0 type hname1 hrun hmiss2
      ⟨st.nextId, st.nextId + 1⟩ hpend
  refine ⟨rfl, rfl, hpend, ?_, ?_, ?_, ?_⟩
  · show (resolve
      { st with
        nextId := st.nextId + 2
        promises := st.promises ++ [(st.nextId, .unsettled)]
        timers := st.timers
          ++ [(st.nextId + 1,
               ⟨cacheKey (normalizeName name0) type, normalizeName name0, st.nextId,
                now + st.options.timeout⟩)]
        pendingQueries := mapSet st.pendingQueries (cacheKey (normalizeName name0) type)
          ⟨st.nextId, st.nextId + 1⟩ } now2 name1 type).outcome = .joined st.nextId
    rw [h2]
  · show (resolve
      { st with
        nextId := st.nextId + 2
        promises := st.promises ++ [(st.nextId, .unsettled)]
        timers := st.timers
          ++ [(st.nextId + 1,
               ⟨cacheKey (normalizeName name0) type, normalizeName name0, st.nextId,
                now + st.options.timeout⟩)]
        pendingQueries := mapSet st.pendingQueries (cacheKey (normalizeName name0) type)
          ⟨st.nextId, st.nextId + 1⟩ } now2 name1 type).sent = []
    rw [h2]
  · show (resolve
      { st with
        nextId := st.nextId + 2
        promises := st.promises ++ [(st.nextId, .unsettled)]
        timers := st.timers
          ++ [(st.nextId + 1,
               ⟨cacheKey (normalizeName name0) type, normalizeName name0, st.nextId,
                now + st.options.timeout⟩)]
        pendingQueries := mapSet st.pendingQueries (cacheKey (normalizeName name0) type)
          ⟨st.nextId, st.nextId + 1⟩ } now2 name1 type).state =
      { st with
        nextId := st.nextId + 2
        promises := st.promises ++ [(st.nextId, .unsettled)]
        timers := st.timers
          ++ [(st.nextId + 1,
               ⟨cacheKey (normalizeName name0) type, normalizeName name0, st.nextId,
                now + st.options.timeout⟩)]
        pendingQueries := mapSet st.pendingQueries (cacheKey (normalizeName name0) type)
          ⟨st.nextId, st.nextId + 1⟩ }
    rw [h2]
  · intro hnd
    show ((mapSet st.pendingQueries (cacheKey (normalizeName name0) type)
      (⟨st.nextId, st.nextId + 1⟩ : PendingEntry)).map Prod.fst).Nodup
    rw [mapSet_of_none _ _ _ hnp, List.map_append]
    refine List.Nodup.append hnd (by simp) ?_
    intro a ha hb
    simp only [List.map_cons, List.map_nil, List.mem_singleton] at hb
    subst hb
    exact (mapGet_eq_none_iff _ _).mp hnp ha

/-- Concrete instantiation of `resolve_dedup`: the first call for
`Dev` issues exactly one query; a second call for the case and suffix
variant `dev.local` joins the same promise and sends nothing. -/
theorem resolve_dedup_witness :
    (resolve ⟨⟨120, 1000, 5000⟩, [], [], [], [], 0, true⟩ 5 "Dev" "A").outcome
        = .newQuery 0 ∧
    (resolve ⟨⟨120, 1000, 5000⟩, [], [], [], [], 0, true⟩ 5 "Dev" "A").sent
        = [⟨"dev.local", "A"⟩] ∧
    (resolve (resolve ⟨⟨120, 1000, 5000⟩, [], [], [], [], 0, true⟩ 5 "Dev" "A").state
        7 "dev.local" "A").outcome = .joined 0 ∧
    (resolve (resolve ⟨⟨120, 1000, 5000⟩, [], [], [], [], 0, true⟩ 5 "Dev" "A").state
        7 "dev.local" "A").sent = [] :=
  have h := resolve_dedup ⟨⟨120, 1000, 5000⟩, [], [], [], [], 0, true⟩ 5 7 "Dev"
    "dev.local" "A" (by decide) (by decide) (by decide) (by decide) (by decide)
  ⟨h.1, h.2.1, h.2.2.2.1, h.2.2.2.2.1⟩

/-- C8: ingestion processes answer records independently: an empty
response is a no-op, non-address record kinds are ignored, and a
single response carrying an `A` and an `AAAA` record for the same name
populates two independent cache entries and settles both pending
queries, each with its own record's address. -/
theorem multi_record_independent (st : ResolverState) (now : Nat) (a4 a6 : Answer)
    (e4 e6 : PendingEntry)
    (ht4 : a4.type = "A") (ht6 : a6.type = "AAAA") (hname : a6.name = a4.name)
    (hc4 : mapGet st.cache (cacheKey (jsToLower a4.name) "A") = none)
    (hc6 : mapGet st.cache (cacheKey (jsToLower a4.name) "AAAA") = none)
    (hroom : st.cache.length + 2 ≤ st.options.cacheSize)
    (hp4 : mapGet st.pendingQueries (cacheKey (jsToLower a4.name) "A") = some e4)
    (hp6 : mapGet st.pendingQueries (cacheKey (jsToLower a4.name) "AAAA") = some e6)
    (hpid : e4.promiseId ≠ e6.promiseId)
    (hu4 : mapGet st.promises e4.promiseId = some .unsettled)
    (hu6 : mapGet st.promises e6.promiseId = some .unsettled)
    (hpk : (st.pendingQueries.map Prod.fst).Nodup) :
    (∀ resp : Response, resp.answers = [] → handleResponse st now resp = (st, [])) ∧
    (∀ a : Answer, a.type ≠ "A" → a.type ≠ "AAAA" → handleAnswer st now a = (st, [])) ∧
    mapGet (handleResponse st now ⟨[a4, a6]⟩).1.cache (cacheKey (jsToLower a4.name) "A")
      = some ⟨a4.data, now + effectiveTtl a4.ttl st.options.ttl * 1000⟩ ∧
    mapGet (handleResponse st now ⟨[a4, a6]⟩).1.cache
        (cacheKey (jsToLower a4.name) "AAAA")
      = some ⟨a6.data, now + effectiveTtl a6.ttl st.options.ttl * 1000⟩ ∧
    mapGet (handleResponse st now ⟨[a4, a6]⟩).1.promises e4.promiseId
      = some (.resolvedWith a4.data) ∧
    mapGet (handleResponse st now ⟨[a4, a6]⟩).1.promises e6.promiseId
      = some (.resolvedWith a6.data) ∧
    mapGet (handleResponse st now ⟨[a4, a6]⟩).1.pendingQueries
        (cacheKey (jsToLower a4.name) "A") = none ∧
    mapGet (handleResponse st now ⟨[a4, a6]⟩).1.pendingQueries
        (cacheKey (jsToLower a4.name) "AAAA") = none := by
  have htype4 : a4.type = "A" ∨ a4.type = "AAAA" := Or.inl ht4
  have htype6 : a6.type = "A" ∨ a6.type = "AAAA" := Or.inr ht6
  have hAB : cacheKey (jsToLower a4.name) "A" ≠ cacheKey (jsToLower a4.name) "AAAA" :=
    cacheKey_ne_of_type_ne _ _ "A" "AAAA" (by decide) (by decide) (by decide)
  have hc1 : (handleAnswer st now a4).1.cache
      = st.cache ++ [(cacheKey (jsToLower a4.name) "A",
          ⟨a4.data, now + effectiveTtl a4.ttl st.options.ttl * 1000⟩)] := by
    have h := handleAnswer_cache st now a4 htype4
    rw [ht4] at h
    rw [h]
    exact cachePut_of_none_room st.cache st.options.cacheSize _ _ hc4 (by omega)
  have hfields1 := handleAnswer_fields_pending st now a4 htype4 e4 (by rw [ht4]; exact hp4)
  rw [ht4] at hfields1
  obtain ⟨hpq1, hpr1, _, hop1, _⟩ := hfields1
  have hkey6 : cacheKey (jsToLower a6.name) a6.type
      = cacheKey (jsToLower a4.name) "AAAA" := by
    rw [hname, ht6]
  have hc6p : mapGet (handleAnswer st now a4).1.cache
      (cacheKey (jsToLower a4.name) "AAAA") = none := by
    rw [hc1, mapGet_append_of_none _ _ _ hc6]
    simp [mapGet, hAB]
  have hlen1 : (handleAnswer st now a4).1.cache.length = st.cache.length + 1 := by
    rw [hc1]
    simp
  have hp6p : mapGet (handleAnswer st now a4).1.pendingQueries
      (cacheKey (jsToLower a4.name) "AAAA") = some e6 := by
    rw [hpq1, mapGet_mapDelete_ne _ _ _ (fun e => hAB e.symm)]
    exact hp6
  have hu6p : mapGet (handleAnswer st now a4).1.promises e6.promiseId
      = some .unsettled := by
    rw [hpr1, settleResolve_get_ne _ _ _ _ (fun e => hpid e.symm)]
    exact hu6
  have hc2 : (handleAnswer (handleAnswer st now a4).1 now a6).1.cache
      = (handleAnswer st now a4).1.cache ++ [(cacheKey (jsToLower a4.name) "AAAA",
          ⟨a6.data, now + effectiveTtl a6.ttl st.options.ttl * 1000⟩)] := by
    have h := handleAnswer_cache (handleAnswer st now a4).1 now a6 htype6
    rw [hkey6, hop1] at h
    rw [h]
    exact cachePut_of_none_room _ st.options.cacheSize _ _ hc6p (by omega)
  have hfields2 := handleAnswer_fields_pending (handleAnswer st now a4).1 now a6 htype6
    e6 (by rw [hkey6]; exact hp6p)
  rw [hkey6] at hfields2
  obtain ⟨hpq2, hpr2, _, _, _⟩ := hfields2
  have hfin : (handleResponse st now ⟨[a4, a6]⟩).1
      = (handleAnswer (handleAnswer st now a4).1 now a6).1 := rfl
  refine ⟨?_, ?_, ?_, ?_, ?_, ?_, ?_, ?_⟩
  · intro resp hr
    simp [handleResponse, hr]
  · intro a hA hAA
    exact handleAnswer_of_other_type st now a hA hAA
  · rw [hfin, hc2]
    apply mapGet_append_of_some
    rw [hc1, mapGet_append_of_none _ _ _ hc4]
    simp [mapGet]
  · rw [hfin, hc2, mapGet_append_of_none _ _ _ hc6p]
    simp [mapGet]
  · rw [hfin, hpr2, hpr1, settleResolve_get_ne _ _ _ _ hpid]
    exact settleResolve_get_self _ _ _ hu4
  · rw [hfin, hpr2]
    exact settleResolve_get_self _ _ _ hu6p
  · rw [hfin, hpq2, hpq1, mapGet_mapDelete_ne _ _ _ hAB]
    exact mapGet_mapDelete_self _ _ hpk
  · rw [hfin, hpq2, hpq1]
    apply mapGet_mapDelete_self
    exact hpk.sublist ((mapDelete_sublist _ _).map Prod.fst)

/-- Concrete instantiation of `multi_record_independent`: one response
with an `A` and an `AAAA` record for `h.local` fills two cache entries
and resolves the two pending promises with their own addresses. -/
theorem multi_record_independent_witness :
    mapGet ((handleResponse
        ⟨⟨120, 1000, 5000⟩, [], [("h.local:A", ⟨0, 1⟩), ("h.local:AAAA", ⟨2, 3⟩)],
         [(0, .unsettled), (2, .unsettled)],
         [(1, ⟨"h.local:A", "h.local", 0, 5000⟩),
          (3, ⟨"h.local:AAAA", "h.local", 2, 5000⟩)], 4, true⟩ 50
        ⟨[⟨"h.local", "A", "1.2.3.4", some 120⟩,
          ⟨"h.local", "AAAA", "fe80::1", some 120⟩]⟩).1.cache) "h.local:A"
      = some ⟨"1.2.3.4", 50 + 120 * 1000⟩ ∧
    mapGet ((handleResponse
        ⟨⟨120, 1000, 5000⟩, [], [("h.local:A", ⟨0, 1⟩), ("h.local:AAAA", ⟨2, 3⟩)],
         [(0, .unsettled), (2, .unsettled)],
         [(1, ⟨"h.local:A", "h.local", 0, 5000⟩),
          (3, ⟨"h.local:AAAA", "h.local", 2, 5000⟩)], 4, true⟩ 50
        ⟨[⟨"h.local", "A", "1.2.3.4", some 120⟩,
          ⟨"h.local", "AAAA", "fe80::1", some 120⟩]⟩).1.cache) "h.local:AAAA"
      = some ⟨"fe80::1", 50 + 120 * 1000⟩ ∧
    mapGet ((handleResponse
        ⟨⟨120, 1000, 5000⟩, [], [("h.local:A", ⟨0, 1⟩), ("h.local:AAAA", ⟨2, 3⟩)],
         [(0, .unsettled), (2, .unsettled)],
         [(1, ⟨"h.local:A", "h.local", 0, 5000⟩),
          (3, ⟨"h.local:AAAA", "h.local", 2, 5000⟩)], 4, true⟩ 50
        ⟨[⟨"h.local", "A", "1.2.3.4", some 120⟩,
          ⟨"h.local", "AAAA", "fe80::1", some 120⟩]⟩).1.promises) 0
      = some (.resolvedWith "1.2.3.4") ∧
    mapGet ((handleResponse
        ⟨⟨120, 1000, 5000⟩, [], [("h.local:A", ⟨0, 1⟩), ("h.local:AAAA", ⟨2, 3⟩)],
         [(0, .unsettled), (2, .unsettled)],
         [(1, ⟨"h.local:A", "h.local", 0, 5000⟩),
          (3, ⟨"h.local:AAAA", "h.local", 2, 5000⟩)], 4, true⟩ 50
        ⟨[⟨"h.local", "A", "1.2.3.4", some 120⟩,
          ⟨"h.local", "AAAA", "fe80::1", some 120⟩]⟩).1.promises) 2
      = some (.resolvedWith "fe80::1") :=
  have h := multi_record_independent
    ⟨⟨120, 1000, 5000⟩, [], [("h.local:A", ⟨0, 1⟩), ("h.local:AAAA", ⟨2, 3⟩)],
     [(0, .unsettled), (2, .unsettled)],
     [(1, ⟨"h.local:A", "h.local", 0, 5000⟩),
      (3, ⟨"h.local:AAAA", "h.local", 2, 5000⟩)], 4, true⟩ 50
    ⟨"h.local", "A", "1.2.3.4", some 120⟩ ⟨"h.local", "AAAA", "fe80::1", some 120⟩
    ⟨0, 1⟩ ⟨2, 3⟩ (by decide) (by decide) (by decide) (by decide) (by decide)
    (by decide) (by decide) (by decide) (by decide) (by decide) (by decide) (by decide)
  ⟨h.2.2.1, h.2.2.2.1, h.2.2.2.2.1, h.2.2.2.2.2.1⟩

/-- C10 counterexample: the composite key simply concatenates name,
a colon, and the record type, so a query type containing a colon can
collide with an address-record key: the pending query created by
`resolve("x", "y:A")` (type neither `A` nor `AAAA`) is settled by an
ingested `A` answer for the name `x.local:y`. -/
theorem foreign_type_counterexample :
    (("y:A" : String) ≠ "A" ∧ ("y:A" : String) ≠ "AAAA") ∧
    mapGet ((handleResponse
        (resolve ⟨⟨120, 1000, 5000⟩, [], [], [], [], 0, true⟩ 0 "x" "y:A").state 0
        ⟨[⟨"x.local:y", "A", "9.9.9.9", some 5⟩]⟩).1.promises) 0
      = some (.resolvedWith "9.9.9.9") :=
  ⟨⟨by decide, by decide⟩, by decide⟩

theorem foldl_ingest_fst (now : Nat) (l : List Answer)
    (acc : ResolverState × List ResolvedEvent) :
    (l.foldl
        (fun acc a =>
          let r := handleAnswer acc.1 now a
          (r.1, acc.2 ++ r.2)) acc).1
      = l.foldl (fun s a => (handleAnswer s now a).1) acc.1 := by
  induction l generalizing acc with
  | nil => rfl
  | cons a rest ih => exact ih _

theorem handleResponse_fst (st : ResolverState) (now : Nat) (resp : Response) :
    (handleResponse st now resp).1
      = resp.answers.foldl (fun s a => (handleAnswer s now a).1) st :=
  foldl_ingest_fst now resp.answers (st, [])

theorem handleAnswer_preserves_other (st : ResolverState) (now : Nat) (answer : Answer)
    (nm t : String) (ent : PendingEntry)
    (hA : t ≠ "A") (hAA : t ≠ "AAAA") (hcolon : ':' ∉ t.data)
    (hpk : (st.pendingQueries.map Prod.fst).Nodup)
    (hpids : (st.pendingQueries.map (fun kv => kv.2.promiseId)).Nodup)
    (hent : mapGet st.pendingQueries (cacheKey nm t) = some ent) :
    mapGet (handleAnswer st now answer).1.pendingQueries (cacheKey nm t) = some ent ∧
    mapGet (handleAnswer st now answer).1.promises ent.promiseId
      = mapGet st.promises ent.promiseId ∧
    ((handleAnswer st now answer).1.pendingQueries.map Prod.fst).Nodup ∧
    ((handleAnswer st now answer).1.pendingQueries.map
      (fun kv => kv.2.promiseId)).Nodup := by
  by_cases htype : answer.type = "A" ∨ answer.type = "AAAA"
  · have hcol2 : ':' ∉ answer.type.data := by
      rcases htype with h | h <;> rw [h] <;> decide
    have htne : answer.type ≠ t := by
      rcases htype with h | h
      · rw [h]
        exact fun e => hA e.symm
      · rw [h]
        exact fun e => hAA e.symm
    have hne : cacheKey (jsToLower answer.name) answer.type ≠ cacheKey nm t :=
      cacheKey_ne_of_type_ne _ _ _ _ hcol2 hcolon htne
    cases hp2 : mapGet st.pendingQueries (cacheKey (jsToLower answer.name) answer.type) with
    | none =>
        have hf := handleAnswer_fields_nopending st now answer htype hp2
        rw [hf.1, hf.2.1]
        exact ⟨hent, rfl, hpk, hpids⟩
    | some ent2 =>
        have hf := handleAnswer_fields_pending st now answer htype ent2 hp2
        have hpidne : ent.promiseId ≠ ent2.promiseId := by
          intro he
          have mem1 : (cacheKey nm t, ent) ∈ st.pendingQueries :=
            mapGet_mem _ _ _ hent
          have mem2 : (cacheKey (jsToLower answer.name) answer.type, ent2)
              ∈ st.pendingQueries := mapGet_mem _ _ _ hp2
          have heq := List.inj_on_of_nodup_map hpids mem1 mem2 he
          exact hne (congrArg Prod.fst heq).symm
        refine ⟨?_, ?_, ?_, ?_⟩
        · rw [hf.1, mapGet_mapDelete_ne _ _ _ (fun e => hne e.symm)]
          exact hent
        · rw [hf.2.1]
          exact settleResolve_get_ne _ _ _ _ hpidne
        · rw [hf.1]
          exact hpk.sublist ((mapDelete_sublist _ _).map Prod.fst)
        · rw [hf.1]
          exact hpids.sublist ((mapDelete_sublist _ _).map _)
  · push_neg at htype
    rw [handleAnswer_of_other_type st now answer htype.1 htype.2]
    exact ⟨hent, rfl, hpk, hpids⟩

theorem ingestList_preserves (now : Nat) (nm t : String) (ent : PendingEntry)
    (hA : t ≠ "A") (hAA : t ≠ "AAAA") (hcolon : ':' ∉ t.data) :
    ∀ (answers : List Answer) (st : ResolverState),
      (st.pendingQueries.map Prod.fst).Nodup →
      (st.pendingQueries.map (fun kv => kv.2.promiseId)).Nodup →
      mapGet st.pendingQueries (cacheKey nm t) = some ent →
      mapGet (answers.foldl (fun s a => (handleAnswer s now a).1) st).pendingQueries
          (cacheKey nm t) = some ent ∧
      mapGet (answers.foldl (fun s a => (handleAnswer s now a).1) st).promises
          ent.promiseId = mapGet st.promises ent.promiseId := by
  intro answers
  induction answers with
  | nil =>
      intro st _ _ h3
      exact ⟨h3, rfl⟩
  | cons a rest ih =>
      intro st h1 h2 h3
      have hstep := handleAnswer_preserves_other st now a nm t ent hA hAA hcolon h1 h2 h3
      have hrest := ih (handleAnswer st now a).1 hstep.2.2.1 hstep.2.2.2 hstep.1
      simp only [List.foldl_cons]
      exact ⟨hrest.1, hrest.2.trans hstep.2.1⟩

theorem stopLoop_rejects_one (entries : List (String × PendingEntry))
    (st : ResolverState) (kv : String × PendingEntry) (hmem : kv ∈ entries)
    (hst : mapGet st.promises kv.2.promiseId = some .unsettled
      ∨ mapGet st.promises kv.2.promiseId = some (.rejectedWith .stoppedErr)) :
    mapGet (stopLoop entries st).promises kv.2.promiseId
      = some (.rejectedWith .stoppedErr) := by
  induction entries generalizing st with
  | nil => cases hmem
  | cons kv0 rest ih =>
      obtain ⟨k0, ent0⟩ := kv0
      simp only [stopLoop]
      have hafter : mapGet (settleReject st.promises ent0.promiseId .stoppedErr)
            kv.2.promiseId = some .unsettled
          ∨ mapGet (settleReject st.promises ent0.promiseId .stoppedErr)
            kv.2.promiseId = some (.rejectedWith .stoppedErr) := by
        by_cases hpe : kv.2.promiseId = ent0.promiseId
        · rcases hst with hu | hs
          · right
            rw [hpe] at hu ⊢
            exact settleReject_get_self _ _ _ hu
          · right
            rw [hpe] at hs ⊢
            rw [settleReject_of_not_unsettled _ _ _ (by rw [hs]; simp)]
            exact hs
        · rw [settleReject_get_ne _ _ _ _ hpe]
          exact hst
      rcases List.mem_cons.mp hmem with heq | hmem2
      · have hstop : mapGet (settleReject st.promises ent0.promiseId .stoppedErr)
            kv.2.promiseId = some (.rejectedWith .stoppedErr) := by
          rw [heq]
          rcases hst with hu | hs
          · rw [heq] at hu
            exact settleReject_get_self _ _ _ hu
          · rw [heq] at hs
            rw [settleReject_of_not_unsettled _ _ _ (by rw [hs]; simp)]
            exact hs
        exact stopLoop_keeps_stopped rest _ _ hstop
      · exact ih _ hmem2 hafter

/-- C10 amended: for a colon-free record type other than the verbatim
`A` or `AAAA` (including lowercase variants), a pending query is never
settled by any ingested response — its entry survives and its promise
keeps its state — while its timeout or a stop still settle it. -/
theorem foreign_type_never_settled (st : ResolverState) (now : Nat) (nm t : String)
    (ent : PendingEntry) (hA : t ≠ "A") (hAA : t ≠ "AAAA") (hcolon : ':' ∉ t.data)
    (hpk : (st.pendingQueries.map Prod.fst).Nodup)
    (hpids : (st.pendingQueries.map (fun kv => kv.2.promiseId)).Nodup)
    (hent : mapGet st.pendingQueries (cacheKey nm t) = some ent)
    (huns : mapGet st.promises ent.promiseId = some .unsettled) :
    (∀ resp : Response,
      mapGet (handleResponse st now resp).1.pendingQueries (cacheKey nm t)
        = some ent ∧
      mapGet (handleResponse st now resp).1.promises ent.promiseId
        = some .unsettled) ∧
    (∀ tinfo : TimerInfo, mapGet st.timers ent.timerId = some tinfo →
      tinfo.promiseId = ent.promiseId →
      mapGet (fireTimer st ent.timerId).promises ent.promiseId
        = some (.rejectedWith (.timeoutErr tinfo.name))) ∧
    mapGet (stop st).promises ent.promiseId = some (.rejectedWith .stoppedErr) := by
  refine ⟨?_, ?_, ?_⟩
  · intro resp
    rw [handleResponse_fst]
    have h := ingestList_preserves now nm t ent hA hAA hcolon resp.answers st hpk
      hpids hent
    exact ⟨h.1, by rw [h.2, huns]⟩
  · intro tinfo htv hpidv
    have hf : fireTimer st ent.timerId =
        { st with
          timers := mapDelete st.timers ent.timerId
          pendingQueries := mapDelete st.pendingQueries tinfo.key
          promises := settleReject st.promises tinfo.promiseId
            (.timeoutErr tinfo.name) } := by
      simp [fireTimer, htv]
    rw [hf]
    show mapGet (settleReject st.promises tinfo.promiseId (.timeoutErr tinfo.name))
      ent.promiseId = some (.rejectedWith (.timeoutErr tinfo.name))
    rw [hpidv]
    exact settleReject_get_self _ _ _ huns
  · show mapGet (stopLoop st.pendingQueries { st with pendingQueries := [] }).promises
      ent.promiseId = some (.rejectedWith .stoppedErr)
    exact stopLoop_rejects_one st.pendingQueries _ (cacheKey nm t, ent)
      (mapGet_mem _ _ _ hent) (Or.inl huns)

/-- Concrete instantiation of `foreign_type_never_settled`: a pending
query with the lowercase type `a` survives an `A` answer for the same
name untouched. -/
theorem foreign_type_never_settled_witness :
    mapGet ((handleResponse
        ⟨⟨120, 1000, 5000⟩, [], [("h.local:a", ⟨0, 1⟩)], [(0, .unsettled)],
         [(1, ⟨"h.local:a", "h.local", 0, 5000⟩)], 2, true⟩ 50
        ⟨[⟨"h.local", "A", "1.2.3.4", some 120⟩]⟩).1.pendingQueries) "h.local:a"
      = some ⟨0, 1⟩ ∧
    mapGet ((handleResponse
        ⟨⟨120, 1000, 5000⟩, [], [("h.local:a", ⟨0, 1⟩)], [(0, .unsettled)],
         [(1, ⟨"h.local:a", "h.local", 0, 5000⟩)], 2, true⟩ 50
        ⟨[⟨"h.local", "A", "1.2.3.4", some 120⟩]⟩).1.promises) 0 = some .unsettled :=
  (foreign_type_never_settled
    ⟨⟨120, 1000, 5000⟩, [], [("h.local:a", ⟨0, 1⟩)], [(0, .unsettled)],
     [(1, ⟨"h.local:a", "h.local", 0, 5000⟩)], 2, true⟩ 50 "h.local" "a" ⟨0, 1⟩
    (by decide) (by decide) (by decide) (by decide) (by decide) (by decide)
    (by decide)).1 ⟨[⟨"h.local", "A", "1.2.3.4", some 120⟩]⟩
